import Mathlib

/-!
A verification development for the `dml` tool (Display Markdown & LaTeX).

The Go sources are shallowly embedded as executable Lean functions over
`List Char`.  The embedding covers:

* the regular-expression patterns of `internal/regex` (`InlineMath`,
  `InlineMathParen`, `StartDisplayMath`, `EndDisplayMath`), modelled as
  explicit leftmost-first scanners, faithful to Go's RE2 semantics
  (leftmost start position, alternatives in order, non-greedy `.+?` =
  shortest body, `(?s)` so `.` matches newlines, `$` = end of text,
  `\s` = `[\t\n\f\r ]`),
* `ReplaceAllStringFunc` (successive non-overlapping leftmost matches),
* `processInlineMath` and the streaming loop `processStreamingDocument`
  of `cmd/dml/main.go`, with the external collaborators (LaTeX renderer,
  Kitty encoder, the gomarkdown parser inside `markdown.ApplyFormatting`)
  abstracted as oracle functions in an environment,
* the `internal/colour` package (`IsHexcolour`, `ToHex`,
  `expandHexcolour`, `ComplementHex`),
* `internal/latex.EscapeLaTeX` and the AST-to-LaTeX transducer
  `markdown.GenerateLatexFromAST`.

Side effects are made explicit: standard output is an accumulated
`List Char`; the error side channel is a list of `Diag` events, one per
`Fprintf(os.Stderr, ...)` site that is warning- or error-class (purely
informational `DEBUG:` trace lines are not modelled, except for the
debug-gated EOF warning of the streaming loop, which the claims talk
about).  A Go slice `s[a:b]` with `a > b` panics; this is modelled by an
explicit `panic` result of the streaming step.
-/

namespace DML

/-- Go regexp `\s` character class: exactly `[\t\n\f\r ]`. -/
def reSpace (c : Char) : Bool :=
  c = '\t' || c = '\n' || c = '\x0c' || c = '\r' || c = ' '

/-- `unicode.IsSpace`, used by `strings.TrimSpace`: Unicode
White_Space, i.e. U+0009..U+000D, space, NEL (133), NBSP (160), OGHAM
SPACE MARK (5760), U+2000..U+200A (8192..8202), LINE SEPARATOR (8232),
PARAGRAPH SEPARATOR (8233), NARROW NBSP (8239), MEDIUM MATHEMATICAL
SPACE (8287), IDEOGRAPHIC SPACE (12288). -/
def goIsSpace (c : Char) : Bool :=
  c.toNat = 32 || (9 ≤ c.toNat && c.toNat ≤ 13) || c.toNat = 133 ||
  c.toNat = 160 || c.toNat = 5760 || (8192 ≤ c.toNat && c.toNat ≤ 8202) ||
  c.toNat = 8232 || c.toNat = 8233 || c.toNat = 8239 || c.toNat = 8287 ||
  c.toNat = 12288

/-- `strings.TrimSpace`: drop leading and trailing white space. -/
def goTrimSpace (s : List Char) : List Char :=
  ((s.dropWhile goIsSpace).reverse.dropWhile goIsSpace).reverse

/-- Go slice `s[a:b]` for `a ≤ b` (the Go runtime panics otherwise;
the panic case is handled explicitly at the call sites that can reach it). -/
def goSlice (s : List Char) (a b : Nat) : List Char :=
  (s.drop a).take (b - a)

/-! ### The regex matchers of `internal/regex`

Each pattern is modelled by a "match at position" function returning the
end index of the (preference-first) match starting there, plus a generic
leftmost scan `findFirst`. -/

/-- Least `j ≥ i` with `p (s[j])`, as an index into `s`. -/
def findIdxFrom (p : Char → Bool) (s : List Char) (i : Nat) : Option Nat :=
  match (s.drop i).findIdx? p with
  | none => none
  | some k => some (i + k)

/-- `InlineMath = (?s)\$(.+?)\$` at position `i`: a `$`, a non-empty
(non-greedy) body, and the earliest closing `$` at some `j ≥ i + 2`.
Returns the end index `j + 1` of the whole match. -/
def matchInlineAt (s : List Char) (i : Nat) : Option Nat :=
  if s.get? i = some '$' then
    match findIdxFrom (fun c => c = '$') s (i + 2) with
    | some j => some (j + 1)
    | none => none
  else none

/-- Index of the first occurrence of the two-character sequence `a b`. -/
def findPairIdx (a b : Char) : List Char → Option Nat
  | [] => none
  | c :: rest =>
    if c = a && rest.head? = some b then some 0
    else (findPairIdx a b rest).map (· + 1)

/-- Least `j ≥ i` such that `s[j] = a` and `s[j+1] = b`. -/
def findIdxFrom2 (s : List Char) (a b : Char) (i : Nat) : Option Nat :=
  (findPairIdx a b (s.drop i)).map (i + ·)

/-- `InlineMathParen = (?s)\\\((.+?)\\\)` at position `i`: `\(`, a
non-empty body, and the earliest `\)` starting at some `j ≥ i + 3`. -/
def matchParenAt (s : List Char) (i : Nat) : Option Nat :=
  if s.get? i = some '\\' && s.get? (i + 1) = some '(' then
    match findIdxFrom2 s '\\' ')' (i + 3) with
    | some j => some (j + 2)
    | none => none
  else none

/-- `StartDisplayMath = (?:^|\s)\$\$|\\\[` at position `i`.
The `^` alternative matches only at the beginning of the text; via the
`\s` alternative, the matched span includes the white-space character. -/
def matchStartDMAt (s : List Char) (i : Nat) : Option Nat :=
  if i = 0 && s.get? 0 = some '$' && s.get? 1 = some '$' then some 2
  else if (s.get? i).elim false reSpace &&
      s.get? (i + 1) = some '$' && s.get? (i + 2) = some '$' then some (i + 3)
  else if s.get? i = some '\\' && s.get? (i + 1) = some '[' then some (i + 2)
  else none

/-- `EndDisplayMath = \$\$(?:$|\s)|\\\]` at position `i`.  `$` (end of
text, preferred) leaves the match at width 2; the `\s` alternative
includes the white-space character in the match. -/
def matchEndDMAt (s : List Char) (i : Nat) : Option Nat :=
  if s.get? i = some '$' && s.get? (i + 1) = some '$' then
    if i + 2 = s.length then some (i + 2)
    else if (s.get? (i + 2)).elim false reSpace then some (i + 3)
    else none
  else if s.get? i = some '\\' && s.get? (i + 1) = some ']' then some (i + 2)
  else none

/-- Leftmost scan: try `m s` at positions `i, i+1, ...` (`fuel` bounds the
recursion; `findFirst` supplies enough fuel to cover the whole string). -/
def findFirstAux (m : Nat → Option Nat) : Nat → Nat → Option (Nat × Nat)
  | _, 0 => none
  | i, fuel + 1 =>
    match m i with
    | some e => some (i, e)
    | none => findFirstAux m (i + 1) fuel

/-- `FindStringIndex`: the leftmost match `[i, e)` of the pattern. -/
def findFirst (m : List Char → Nat → Option Nat) (s : List Char) :
    Option (Nat × Nat) :=
  findFirstAux (m s) 0 (s.length + 1)

/-- Leftmost `InlineMath` match of a string. -/
def goFindInline (s : List Char) : Option (Nat × Nat) := findFirst matchInlineAt s

/-- Leftmost `InlineMathParen` match of a string. -/
def goFindParen (s : List Char) : Option (Nat × Nat) := findFirst matchParenAt s

/-! ### Effects and external collaborators -/

/-- One warning- or error-class write to the error side channel
(`fmt.Fprintf(os.Stderr, ...)`), carrying the dynamic data of the
formatted message. -/
inductive Diag where
  | renderInlineFailed (content : List Char)
  | kittyInlineFailed (content : List Char)
  | renderDisplayFailed
  | kittyDisplayFailed
  | eofUnterminatedWarning
deriving DecidableEq, Repr

/-- The external collaborators of the pipeline: `latex.RenderMath`
(content, isDisplay ↦ image bytes or failure), `terminal.KittyInline`
(image, isDisplay ↦ display string or failure; the colour, size and dpi
arguments, constant per run, are absorbed), and the gomarkdown
parse-and-ANSI-render composition inside `markdown.ApplyFormatting`. -/
structure RenderEnv where
  render : List Char → Bool → Option (List Char)
  kitty : List Char → Bool → Option (List Char)
  mdParse : List Char → List Char

/-! ### `ReplaceAllStringFunc` and segmentation -/

/-- `Regexp.ReplaceAllStringFunc`: repeatedly take the leftmost match of
`find`, replace it by the first component of `h`, and continue after it;
the second components collect the side-channel writes of `h`.  All the
patterns used here match at least three characters, so fuel
`s.length + 1` (supplied by `replaceAll`) never runs out. -/
def replaceAllAux (find : List Char → Option (Nat × Nat))
    (h : List Char → List Char × List Diag) :
    Nat → List Char → List Char × List Diag
  | 0, s => (s, [])
  | fuel + 1, s =>
    match find s with
    | none => (s, [])
    | some (i, e) =>
      let hm := h (goSlice s i e)
      let rest := replaceAllAux find h fuel (s.drop e)
      (s.take i ++ hm.1 ++ rest.1, hm.2 ++ rest.2)

/-- `ReplaceAllStringFunc` with enough fuel for the whole string. -/
def replaceAll (find : List Char → Option (Nat × Nat))
    (h : List Char → List Char × List Diag) (s : List Char) :
    List Char × List Diag :=
  replaceAllAux find h (s.length + 1) s

/-- A segment of a line, as carved out by one inline-math pattern:
plain text between matches, or the literal text of one match. -/
inductive Seg where
  | plain (t : List Char)
  | math (lit : List Char)
deriving DecidableEq, Repr

/-- The decomposition of a string into the successive leftmost matches
of `find` and the plain gaps around them. -/
def segmentsAux (find : List Char → Option (Nat × Nat)) :
    Nat → List Char → List Seg
  | 0, s => [.plain s]
  | fuel + 1, s =>
    match find s with
    | none => [.plain s]
    | some (i, e) =>
      .plain (s.take i) :: .math (goSlice s i e) :: segmentsAux find fuel (s.drop e)

/-- Segmentation of a whole string. -/
def segments (find : List Char → Option (Nat × Nat)) (s : List Char) : List Seg :=
  segmentsAux find (s.length + 1) s

/-- The literal (un-rendered) reconstruction of a segment. -/
def segLit : Seg → List Char
  | .plain t => t
  | .math l => l

/-! ### `processInlineMath` (cmd/dml/main.go) -/

/-- The replacement function for a `$...$` match: trim the body; an
empty body passes the match through untouched (and never consults the
renderer); otherwise render and encode, falling back to the literal
match text with a diagnostic on either failure. -/
def inlineHandlerD (env : RenderEnv) (m : List Char) : List Char × List Diag :=
  let content := goTrimSpace (goSlice m 1 (m.length - 1))
  if content = [] then (m, [])
  else
    match env.render content false with
    | none => (m, [.renderInlineFailed content])
    | some img =>
      match env.kitty img false with
      | none => (m, [.kittyInlineFailed content])
      | some k => (k, [])

/-- The replacement function for a `\(...\)` match (same policy, the
delimiters are two characters wide). -/
def inlineHandlerP (env : RenderEnv) (m : List Char) : List Char × List Diag :=
  let content := goTrimSpace (goSlice m 2 (m.length - 2))
  if content = [] then (m, [])
  else
    match env.render content false with
    | none => (m, [.renderInlineFailed content])
    | some img =>
      match env.kitty img false with
      | none => (m, [.kittyInlineFailed content])
      | some k => (k, [])

/-- `processInlineMath`: the `$...$` pass followed by the `\(...\)` pass
over its output. -/
def processInlineMath (env : RenderEnv) (line : List Char) :
    List Char × List Diag :=
  let p1 := replaceAll goFindInline (inlineHandlerD env) line
  let p2 := replaceAll goFindParen (inlineHandlerP env) p1.1
  (p2.1, p1.2 ++ p2.2)

/-! ### `markdown.ApplyFormatting` and the streaming loop -/

/-- `strings.ReplaceAll` for a two-character pattern `a b`
(left-to-right, non-overlapping). -/
def goReplaceAll2 (a b : Char) (repl : List Char) : List Char → List Char
  | [] => []
  | [c1] => [c1]
  | c1 :: c2 :: rest =>
    if c1 = a && c2 = b then repl ++ goReplaceAll2 a b repl rest
    else c1 :: goReplaceAll2 a b repl (c2 :: rest)

/-- `strings.HasSuffix`. -/
def hasSuffix (s suf : List Char) : Bool := List.isSuffixOf suf s

/-- `strings.TrimSuffix`. -/
def goTrimSuffix (s suf : List Char) : List Char :=
  if hasSuffix s suf then s.take (s.length - suf.length) else s

/-- The pure tail of `markdown.ApplyFormatting` after the external
gomarkdown parse/render: unescape `\n` and `\%`, then trim a trailing
`%` and a trailing NUL. -/
def applyFmtPost (r : List Char) : List Char :=
  goTrimSuffix (goTrimSuffix
    (goReplaceAll2 '\\' '%' ['%'] (goReplaceAll2 '\\' 'n' ['\n'] r))
    ['%']) ['\x00']

/-- `markdown.ApplyFormatting`: external parse/render, then the pure
post-processing. -/
def applyFormatting (env : RenderEnv) (line : List Char) : List Char :=
  applyFmtPost (env.mdParse line)

/-- Output and diagnostics for a line fragment sent through
`processInlineMath` and `ApplyFormatting` (the before-delimiter,
after-delimiter and post-close-remainder writes of the streaming loop). -/
def fragmentOut (env : RenderEnv) (frag : List Char) : List Char × List Diag :=
  let p := processInlineMath env frag
  (applyFormatting env p.1, p.2)

/-- The failure-substitution block shared by all display-math render
sites: on renderer or encoder failure write `$$` + content + `$$` and a
newline (regardless of which delimiters the source used). -/
def displayRender (env : RenderEnv) (content : List Char) :
    List Char × List Diag :=
  match env.render content true with
  | none => ('$' :: '$' :: content ++ ['$', '$', '\n'], [.renderDisplayFailed])
  | some img =>
    match env.kitty img true with
    | none => ('$' :: '$' :: content ++ ['$', '$', '\n'], [.kittyDisplayFailed])
    | some k => (k, [])

/-- The no-display-delimiters branch of the streaming loop: inline
processing, Markdown formatting, trailing `%`/NUL trimming, and
restoration of a trailing newline the formatter may have eaten. -/
def elseBranchOut (env : RenderEnv) (line : List Char) :
    List Char × List Diag :=
  let p := processInlineMath env line
  let f2 := goTrimSuffix (goTrimSuffix (applyFormatting env p.1) ['%']) ['\x00']
  (if hasSuffix p.1 ['\n'] && !hasSuffix f2 ['\n'] then f2 ++ ['\n'] else f2, p.2)

/-- The state carried across lines by `processStreamingDocument`. -/
structure StreamState where
  inDisplay : Bool
  buffer : List Char
deriving DecidableEq, Repr

/-- Which of the three Normal-mode branches a line takes, from the
guards on `StartDisplayMath.FindStringIndex` and
`EndDisplayMath.FindStringIndex`. -/
inductive NormalBranch where
  | openBlock (s0 s1 : Nat)
  | singleLine (s0 s1 e0 e1 : Nat)
  | inlineOnly
deriving DecidableEq, Repr

/-- The branch dispatch of the Normal-mode arm of the streaming loop. -/
def normalBranch (line : List Char) : NormalBranch :=
  match findFirst matchStartDMAt line, findFirst matchEndDMAt line with
  | some (s0, s1), none => .openBlock s0 s1
  | some (s0, s1), some (e0, _e1) =>
    if e0 < s0 then .openBlock s0 s1
    else if s0 < e0 then .singleLine s0 s1 e0 _e1
    else .inlineOnly
  | none, _ => .inlineOnly

/-- Result of one iteration of the streaming loop: the next state plus
this line's stdout chunk and stderr events, or a runtime panic (Go
slice out of range), which loses the line's unflushed stdout chunk but
keeps the stderr writes made before the panic. -/
inductive StepRes where
  | ok (st : StreamState) (out : List Char) (diags : List Diag)
  | panicked (diags : List Diag)
deriving DecidableEq, Repr

/-- One iteration of the line loop of `processStreamingDocument`. -/
def stepLine (env : RenderEnv) (st : StreamState) (line : List Char) : StepRes :=
  if st.inDisplay then
    match findFirst matchEndDMAt line with
    | some (e0, e1) =>
      let d := displayRender env (st.buffer ++ line.take e0)
      let remaining := line.drop e1
      if remaining = [] then .ok ⟨false, []⟩ d.1 d.2
      else
        let r := fragmentOut env remaining
        .ok ⟨false, []⟩ (d.1 ++ r.1) (d.2 ++ r.2)
    | none => .ok ⟨true, st.buffer ++ line⟩ [] []
  else
    match normalBranch line with
    | .openBlock s0 s1 =>
      let b := if line.take s0 = [] then ([], []) else fragmentOut env (line.take s0)
      .ok ⟨true, st.buffer ++ line.drop s1⟩ b.1 b.2
    | .singleLine s0 s1 e0 e1 =>
      let b := if line.take s0 = [] then ([], []) else fragmentOut env (line.take s0)
      if e0 < s1 then .panicked b.2
      else
        let d := displayRender env (goSlice line s1 e0)
        let a := if line.drop e1 = [] then ([], []) else fragmentOut env (line.drop e1)
        .ok ⟨false, []⟩ (b.1 ++ d.1 ++ a.1) (b.2 ++ d.2 ++ a.2)
    | .inlineOnly =>
      let r := elseBranchOut env line
      .ok ⟨false, st.buffer⟩ r.1 r.2

/-- The state transition of one loop iteration, which does not depend on
the external collaborators (`none` = panic). -/
def stepState (st : StreamState) (line : List Char) : Option StreamState :=
  if st.inDisplay then
    match findFirst matchEndDMAt line with
    | some _ => some ⟨false, []⟩
    | none => some ⟨true, st.buffer ++ line⟩
  else
    match normalBranch line with
    | .openBlock _ s1 => some ⟨true, st.buffer ++ line.drop s1⟩
    | .singleLine _ s1 e0 _ => if e0 < s1 then none else some ⟨false, []⟩
    | .inlineOnly => some ⟨false, st.buffer⟩

/-- The successive states of the streaming loop over a list of lines
(cut short by a panic). -/
def stateTrace : StreamState → List (List Char) → List (Option StreamState)
  | _, [] => []
  | st, l :: ls =>
    match stepState st l with
    | none => [none]
    | some st' => some st' :: stateTrace st' ls

/-- The state of a `StepRes`. -/
def StepRes.state : StepRes → Option StreamState
  | .ok st _ _ => some st
  | .panicked _ => none

/-- Whether a `StepRes` is a panic. -/
def StepRes.isPanic : StepRes → Bool
  | .ok _ _ _ => false
  | .panicked _ => true

/-- Result of running the loop over a whole stream. -/
inductive RunRes where
  | ok (st : StreamState) (out : List Char) (diags : List Diag)
  | panicked (out : List Char) (diags : List Diag)
deriving DecidableEq, Repr

/-- The line loop over a list of lines (each line carries its trailing
newline, except possibly the last, as delivered by `ReadString('\n')`). -/
def runLines (env : RenderEnv) : StreamState → List (List Char) → RunRes
  | st, [] => .ok st [] []
  | st, l :: ls =>
    match stepLine env st l with
    | .panicked d => .panicked [] d
    | .ok st' o d =>
      match runLines env st' ls with
      | .ok st'' o2 d2 => .ok st'' (o ++ o2) (d ++ d2)
      | .panicked o2 d2 => .panicked (o ++ o2) (d ++ d2)

/-- Overall result of `processStreamingDocument`. -/
structure RunOut where
  out : List Char
  diags : List Diag
  crashed : Bool
deriving DecidableEq, Repr

/-- `processStreamingDocument`: run the loop, then the EOF handler —
if input ended inside a display block, the opening `$$` and the buffer
are written verbatim, and (only in debug mode) a warning is logged. -/
def processStream (env : RenderEnv) (debug : Bool)
    (lines : List (List Char)) : RunOut :=
  match runLines env ⟨false, []⟩ lines with
  | .panicked o d => ⟨o, d, true⟩
  | .ok st o d =>
    if st.inDisplay then
      ⟨o ++ '$' :: '$' :: st.buffer,
       d ++ (if debug then [.eofUnterminatedWarning] else []), false⟩
    else ⟨o, d, false⟩

/-! ### The `internal/colour` package -/

/-- `strings.ToLower` (ASCII letters, code points 65..90; the colour
table keys and hex digits are all ASCII). -/
def goToLower (c : Char) : Char :=
  if 65 ≤ c.toNat && c.toNat ≤ 90 then Char.ofNat (c.toNat + 32) else c

/-- `strings.ToLower` on a whole string. -/
def lowerStr (s : List Char) : List Char := s.map goToLower

/-- The `[0-9a-fA-F]` character class (code points 48..57, 97..102,
65..70). -/
def isHexDigitChar (c : Char) : Bool :=
  (48 ≤ c.toNat && c.toNat ≤ 57) || (97 ≤ c.toNat && c.toNat ≤ 102) ||
  (65 ≤ c.toNat && c.toNat ≤ 70)

/-- `IsHexcolour`: regexp `^#([0-9a-fA-F]{6}|[0-9a-fA-F]{3})$` — a `#`
followed by exactly six or exactly three hex digits. -/
def IsHexcolour (s : List Char) : Bool :=
  s.head? = some '#' && (s.length = 7 || s.length = 4) &&
  s.tail.all isHexDigitChar

/-- The fixed table `namedcolourHex` of CSS/X11 colour names. -/
def namedcolourHex : List (List Char × List Char) :=
  [("black".toList, "#000000".toList),
   ("white".toList, "#FFFFFF".toList),
   ("red".toList, "#FF0000".toList),
   ("green".toList, "#00FF00".toList),
   ("blue".toList, "#0000FF".toList),
   ("yellow".toList, "#FFFF00".toList),
   ("cyan".toList, "#00FFFF".toList),
   ("magenta".toList, "#FF00FF".toList),
   ("gray".toList, "#808080".toList),
   ("grey".toList, "#808080".toList),
   ("orange".toList, "#FFA500".toList),
   ("purple".toList, "#800080".toList),
   ("brown".toList, "#A52A2A".toList),
   ("pink".toList, "#FFC0CB".toList),
   ("lime".toList, "#00FF00".toList),
   ("navy".toList, "#000080".toList),
   ("teal".toList, "#008080".toList),
   ("maroon".toList, "#800000".toList),
   ("olive".toList, "#808000".toList),
   ("silver".toList, "#C0C0C0".toList)]

/-- Go map lookup on the association list. -/
def assocLookup : List (List Char × List Char) → List Char → Option (List Char)
  | [], _ => none
  | (k, v) :: rest, key => if key = k then some v else assocLookup rest key

/-- `expandHexcolour`: a length-4 string `#RGB` is doubled to `#RRGGBB`
(Go always emits a leading `#` in that case); anything else passes
through. -/
def expandHexcolour (s : List Char) : List Char :=
  match s with
  | [_, a, b, c] => ['#', a, a, b, b, c, c]
  | _ => s

/-- `ToHex`: trim and lower-case, accept hex syntax (expanded) or a
named colour, otherwise the empty-string sentinel. -/
def ToHex (s0 : List Char) : List Char :=
  let s := lowerStr (goTrimSpace s0)
  if IsHexcolour s then expandHexcolour s
  else
    match assocLookup namedcolourHex s with
    | some hex => hex
    | none => []

/-- The numeric value of one hex digit (`strconv` accepts both cases). -/
def hexDigitVal (c : Char) : Option Nat :=
  if 48 ≤ c.toNat && c.toNat ≤ 57 then some (c.toNat - 48)
  else if 97 ≤ c.toNat && c.toNat ≤ 102 then some (c.toNat - 87)
  else if 65 ≤ c.toNat && c.toNat ≤ 70 then some (c.toNat - 55)
  else none

/-- `strconv.ParseUint(s, 16, 8)` on a two-character slice; the Go
callers discard the error, in which case the value is 0. -/
def parseHexByte (l : List Char) : Nat :=
  match l with
  | [c1, c2] =>
    match hexDigitVal c1, hexDigitVal c2 with
    | some a, some b => 16 * a + b
    | _, _ => 0
  | _ => 0

/-- One digit of `%X`: uppercase hex. -/
def upperHexDigit (n : Nat) : Char :=
  if n < 10 then Char.ofNat (48 + n) else Char.ofNat (55 + n)

/-- `%02X` of a byte value. -/
def byteToHex2 (n : Nat) : List Char :=
  [upperHexDigit (n / 16), upperHexDigit (n % 16)]

/-- `ComplementHex`: expand `#RGB` if needed, parse the three channel
bytes, XOR each with `0xFF`, and format as `#%02X%02X%02X`. -/
def ComplementHex (s0 : List Char) : List Char :=
  let s := expandHexcolour s0
  let r := parseHexByte (goSlice s 1 3)
  let g := parseHexByte (goSlice s 3 5)
  let b := parseHexByte (goSlice s 5 7)
  '#' :: (byteToHex2 (255 ^^^ r) ++ byteToHex2 (255 ^^^ g) ++ byteToHex2 (255 ^^^ b))

/-! ### `internal/latex.EscapeLaTeX` and the AST transducer -/

/-- The per-character substitution table of `latexEscaper`
(`strings.NewReplacer`; all patterns are single distinct characters, so
the single left-to-right pass is an independent map of each character,
and replacement text is never rescanned). -/
def escapeChar (c : Char) : List Char :=
  if c = '\\' then "\\textbackslash\x7b\x7d".toList
  else if c = '&' then ['\\', '&']
  else if c = '%' then ['\\', '%']
  else if c = '$' then ['\\', '$']
  else if c = '#' then ['\\', '#']
  else if c = '_' then ['\\', '_']
  else if c = '\x7b' then ['\\', '\x7b']
  else if c = '\x7d' then ['\\', '\x7d']
  else if c = '~' then "\\textasciitilde\x7b\x7d".toList
  else if c = '^' then "\\textasciicircum\x7b\x7d".toList
  else if c = '[' then "\x7b[\x7d".toList
  else if c = ']' then "\x7b]\x7d".toList
  else if c = '|' then "\x7b\\vert\x7d".toList
  else if c = '/' then "\x7b/\x7d".toList
  else [c]

/-- `latex.EscapeLaTeX`. -/
def EscapeLaTeX (s : List Char) : List Char := (s.map escapeChar).flatten

/-- The Markdown document tree consumed by `GenerateLatexFromAST`
(produced by the external gomarkdown parser with the MathJax
extension). -/
inductive MdNode where
  | document (cs : List MdNode)
  | text (lit : List Char)
  | emph (cs : List MdNode)
  | strong (cs : List MdNode)
  | math (lit : List Char)
  | mathBlock (lit : List Char)
  | par (cs : List MdNode)
  | softbreak
  | hardbreak
  | code (lit : List Char)
  | codeBlock (lit : List Char)
  | heading (level : Nat) (cs : List MdNode)
  | container (cs : List MdNode)

/-- The sectioning-command opener for a heading level (the Go `switch`
leaves it empty outside 1..6). -/
def headingOpen (level : Nat) : List Char :=
  if level = 1 then "\\section*\x7b".toList
  else if level = 2 then "\\subsection*\x7b".toList
  else if level = 3 then "\\subsubsection*\x7b".toList
  else if level = 4 || level = 5 || level = 6 then "\\paragraph*\x7b".toList
  else []

mutual

/-- `markdown.GenerateLatexFromAST`, returning the accumulated builder
content. -/
def generateLatex : MdNode → List Char
  | .document cs => generateLatexList cs
  | .text lit => EscapeLaTeX lit
  | .emph cs => "\\textit\x7b".toList ++ generateLatexList cs ++ ['\x7d']
  | .strong cs => "\\textbf\x7b".toList ++ generateLatexList cs ++ ['\x7d']
  | .math lit => '$' :: lit ++ ['$']
  | .mathBlock lit => '$' :: '$' :: lit ++ ['$', '$']
  | .par cs => generateLatexList cs ++ "\n\\par\n\n".toList
  | .softbreak => "\\\\\n".toList
  | .hardbreak => "\\\\\n".toList
  | .code lit => "\\texttt\x7b".toList ++ EscapeLaTeX lit ++ ['\x7d']
  | .codeBlock lit =>
    "\n\\begin\x7bverbatim\x7d\n".toList ++ lit ++ "\\end\x7bverbatim\x7d\n".toList
  | .heading l cs => headingOpen l ++ generateLatexList cs ++ ['\x7d', '\n']
  | .container cs => generateLatexList cs

/-- Children are transduced left to right. -/
def generateLatexList : List MdNode → List Char
  | [] => []
  | n :: ns => generateLatex n ++ generateLatexList ns

end

/-! ## Generic lemmas about the scanners -/

theorem findIdxFrom_le {p : Char → Bool} {s : List Char} {i j : Nat}
    (h : findIdxFrom p s i = some j) : i ≤ j := by
  unfold findIdxFrom at h
  cases hf : (s.drop i).findIdx? p with
  | none => rw [hf] at h; exact absurd h (by simp)
  | some k => rw [hf] at h; simp only [Option.some.injEq] at h; omega

theorem findIdxFrom2_le {s : List Char} {a b : Char} {i j : Nat}
    (h : findIdxFrom2 s a b i = some j) : i ≤ j := by
  unfold findIdxFrom2 at h
  cases hf : findPairIdx a b (s.drop i) with
  | none => rw [hf] at h; exact absurd h (by simp)
  | some k => rw [hf] at h; simp at h; omega

theorem matchInlineAt_bound {s : List Char} {i e : Nat}
    (h : matchInlineAt s i = some e) : i + 3 ≤ e := by
  unfold matchInlineAt at h
  split at h
  · cases hf : findIdxFrom (fun c => c = '$') s (i + 2) with
    | none => rw [hf] at h; exact absurd h (by simp)
    | some j =>
      rw [hf] at h
      simp only [Option.some.injEq] at h
      have := findIdxFrom_le hf
      omega
  · exact absurd h (by simp)

theorem matchParenAt_bound {s : List Char} {i e : Nat}
    (h : matchParenAt s i = some e) : i + 5 ≤ e := by
  unfold matchParenAt at h
  split at h
  · cases hf : findIdxFrom2 s '\\' ')' (i + 3) with
    | none => rw [hf] at h; exact absurd h (by simp)
    | some j =>
      rw [hf] at h
      simp only [Option.some.injEq] at h
      have := findIdxFrom2_le hf
      omega
  · exact absurd h (by simp)

theorem findFirstAux_some {m : Nat → Option Nat} {P : Nat → Nat → Prop}
    (hm : ∀ p e, m p = some e → P p e) :
    ∀ fuel i p e, findFirstAux m i fuel = some (p, e) → P p e := by
  intro fuel
  induction fuel with
  | zero => intro i p e h; exact absurd h (by simp [findFirstAux])
  | succ n ih =>
    intro i p e h
    unfold findFirstAux at h
    cases hmi : m i with
    | some e2 =>
      rw [hmi] at h
      simp only [Option.some.injEq, Prod.mk.injEq] at h
      obtain ⟨rfl, rfl⟩ := h
      exact hm _ _ hmi
    | none => rw [hmi] at h; exact ih _ _ _ h

theorem goFindInline_le {s : List Char} {i e : Nat}
    (h : goFindInline s = some (i, e)) : i ≤ e :=
  findFirstAux_some (P := fun p e => p ≤ e)
    (fun p e hpe => by have := matchInlineAt_bound hpe; omega) _ _ _ _ h

theorem goFindParen_le {s : List Char} {i e : Nat}
    (h : goFindParen s = some (i, e)) : i ≤ e :=
  findFirstAux_some (P := fun p e => p ≤ e)
    (fun p e hpe => by have := matchParenAt_bound hpe; omega) _ _ _ _ h

theorem take_slice_drop {s : List Char} {i e : Nat} (hie : i ≤ e) :
    s.take i ++ (goSlice s i e ++ s.drop e) = s := by
  have h1 : goSlice s i e ++ s.drop e = s.drop i := by
    rw [goSlice]
    conv_rhs => rw [← List.take_append_drop (e - i) (s.drop i)]
    congr 1
    rw [List.drop_drop]
    congr 1
    omega
  rw [h1, List.take_append_drop]

theorem segmentsAux_succ_none {find : List Char → Option (Nat × Nat)}
    {s : List Char} {n : Nat} (hf : find s = none) :
    segmentsAux find (n + 1) s = [.plain s] := by
  conv_lhs => unfold segmentsAux
  rw [hf]

theorem segmentsAux_succ_some {find : List Char → Option (Nat × Nat)}
    {s : List Char} {n i e : Nat} (hf : find s = some (i, e)) :
    segmentsAux find (n + 1) s =
      .plain (s.take i) :: .math (goSlice s i e) :: segmentsAux find n (s.drop e) := by
  conv_lhs => unfold segmentsAux
  rw [hf]

theorem replaceAllAux_succ_none {find : List Char → Option (Nat × Nat)}
    {h : List Char → List Char × List Diag} {s : List Char} {n : Nat}
    (hf : find s = none) : replaceAllAux find h (n + 1) s = (s, []) := by
  conv_lhs => unfold replaceAllAux
  rw [hf]

theorem replaceAllAux_succ_some {find : List Char → Option (Nat × Nat)}
    {h : List Char → List Char × List Diag} {s : List Char} {n i e : Nat}
    (hf : find s = some (i, e)) :
    replaceAllAux find h (n + 1) s =
      (s.take i ++ (h (goSlice s i e)).1 ++ (replaceAllAux find h n (s.drop e)).1,
       (h (goSlice s i e)).2 ++ (replaceAllAux find h n (s.drop e)).2) := by
  conv_lhs => unfold replaceAllAux
  rw [hf]

/-- Concatenating the literal reconstructions of all segments of any
string, for any well-behaved leftmost matcher, gives the string back. -/
theorem segments_flatten {find : List Char → Option (Nat × Nat)}
    (hfind : ∀ s i e, find s = some (i, e) → i ≤ e) (s : List Char) :
    ((segments find s).map segLit).flatten = s := by
  suffices key : ∀ fuel t, ((segmentsAux find fuel t).map segLit).flatten = t from
    key _ s
  intro fuel
  induction fuel with
  | zero => intro t; simp [segmentsAux, segLit]
  | succ n ih =>
    intro t
    cases hf : find t with
    | none => rw [segmentsAux_succ_none hf]; simp [segLit]
    | some ie =>
      obtain ⟨i, e⟩ := ie
      rw [segmentsAux_succ_some hf]
      simp only [List.map_cons, List.flatten_cons, segLit, ih]
      exact take_slice_drop (hfind t i e hf)

/-- Per-segment output: a plain gap passes through with no diagnostics,
a match goes through the replacement function. -/
def segOut (h : List Char → List Char × List Diag) : Seg → List Char × List Diag
  | .plain t => (t, [])
  | .math m => h m

/-- The concatenated stdout contribution of a segment list. -/
def segsOutStr (h : List Char → List Char × List Diag) (segs : List Seg) :
    List Char :=
  (segs.map fun g => (segOut h g).1).flatten

/-- The concatenated stderr contribution of a segment list. -/
def segsOutDiags (h : List Char → List Char × List Diag) (segs : List Seg) :
    List Diag :=
  (segs.map fun g => (segOut h g).2).flatten

/-- `ReplaceAllStringFunc` factors through the segmentation: the output
is the join of independent per-segment outputs, and the diagnostics are
the join of independent per-segment diagnostics. -/
theorem replaceAll_segments (find : List Char → Option (Nat × Nat))
    (h : List Char → List Char × List Diag) (s : List Char) :
    replaceAll find h s =
      (segsOutStr h (segments find s), segsOutDiags h (segments find s)) := by
  suffices key : ∀ fuel t, replaceAllAux find h fuel t =
      (segsOutStr h (segmentsAux find fuel t),
       segsOutDiags h (segmentsAux find fuel t)) from key _ s
  intro fuel
  induction fuel with
  | zero => intro t; simp [replaceAllAux, segmentsAux, segsOutStr, segsOutDiags, segOut]
  | succ n ih =>
    intro t
    cases hf : find t with
    | none =>
      rw [replaceAllAux_succ_none hf, segmentsAux_succ_none hf]
      simp [segsOutStr, segsOutDiags, segOut]
    | some ie =>
      obtain ⟨i, e⟩ := ie
      rw [replaceAllAux_succ_some hf, segmentsAux_succ_some hf]
      simp [segsOutStr, segsOutDiags, segOut, ih]

/-- The un-rendered environment: the external renderer fails on every
call, so every math segment falls back to its literal source text. -/
def envNoRender : RenderEnv := ⟨fun _ _ => none, fun _ _ => none, id⟩

theorem inlineHandlerD_noRender_fst (m : List Char) :
    (inlineHandlerD envNoRender m).1 = m := by
  unfold inlineHandlerD envNoRender
  dsimp only
  split <;> rfl

theorem inlineHandlerP_noRender_fst (m : List Char) :
    (inlineHandlerP envNoRender m).1 = m := by
  unfold inlineHandlerP envNoRender
  dsimp only
  split <;> rfl

theorem segsOutStr_lit {h : List Char → List Char × List Diag}
    (hh : ∀ m, (h m).1 = m) (segs : List Seg) :
    segsOutStr h segs = (segs.map segLit).flatten := by
  induction segs with
  | nil => rfl
  | cons g rest ih =>
    cases g with
    | plain t => simp [segsOutStr, segOut, segLit] at ih ⊢; exact ih
    | math m => simp [segsOutStr, segOut, segLit, hh] at ih ⊢; exact ih

/-- Claim C2.  For every input line, concatenating the literal
(un-rendered) reconstructions of the segments the streaming segmenter
emits for that line — for the `$...$` pass, for the `\(...\)` pass, and
for the full `processInlineMath` pipeline with every render failing —
reproduces the original line exactly, character for character.  (The
claim assumes balanced inline delimiters; the property holds for all
lines, balanced or not, so in particular for the balanced ones.) -/
theorem c2_segmenter_roundtrip (line : List Char) :
    ((segments goFindInline line).map segLit).flatten = line ∧
    ((segments goFindParen line).map segLit).flatten = line ∧
    (processInlineMath envNoRender line).1 = line := by
  have hD : ((segments goFindInline line).map segLit).flatten = line :=
    segments_flatten (fun _ _ _ h => goFindInline_le h) line
  refine ⟨hD, segments_flatten (fun _ _ _ h => goFindParen_le h) line, ?_⟩
  simp only [processInlineMath, replaceAll_segments]
  rw [segsOutStr_lit inlineHandlerD_noRender_fst, hD,
    segsOutStr_lit inlineHandlerP_noRender_fst]
  exact segments_flatten (fun _ _ _ h => goFindParen_le h) line

/-! ## C9: LaTeX escaping in the document transducer -/

/-- Claim C9.  The document transducer LaTeX-escapes Text node content:
escaping the text `100% & $5` yields `100\% \& \$5`, with `\%`, `\&`
and `\$` in place of the raw characters and exactly the three
introduced backslashes (no double-escaping: escaping is a single pass,
each input character is substituted independently and replacement text
is never rescanned, which is what substituting the backslash first
achieves in the Go replacer). -/
theorem c9_transducer_escaping :
    generateLatex (.text ("100% & $5".toList)) = "100\\% \\& \\$5".toList ∧
    ("\\%".toList <:+: generateLatex (.text ("100% & $5".toList))) ∧
    ("\\&".toList <:+: generateLatex (.text ("100% & $5".toList))) ∧
    ("\\$".toList <:+: generateLatex (.text ("100% & $5".toList))) ∧
    (generateLatex (.text ("100% & $5".toList))).count '\\' = 3 ∧
    (∀ s t : List Char, EscapeLaTeX (s ++ t) = EscapeLaTeX s ++ EscapeLaTeX t) := by
  refine ⟨by decide, by decide, by decide, by decide, by decide, ?_⟩
  intro s t
  simp [EscapeLaTeX]

/-! ## The colour resolver: C7 and C8 -/

/-- Uppercase hex digits `0-9A-F` — the output alphabet of `%02X`;
this is the spec's notion of "uppercase hex". -/
def isUpperHexDigit (c : Char) : Bool :=
  (48 ≤ c.toNat && c.toNat ≤ 57) || (65 ≤ c.toNat && c.toNat ≤ 70)

/-- The spec's "6-digit uppercase hex string": `#` plus six uppercase
hex digits. -/
def specUppercaseHex (s : List Char) : Bool :=
  s.head? = some '#' && s.length = 7 && s.tail.all isUpperHexDigit

theorem toNat_ofNat_ascii {n : Nat} (h : n < 1000) : (Char.ofNat n).toNat = n := by
  unfold Char.ofNat
  rw [dif_pos (Or.inl (by omega))]
  rfl

theorem upperHexDigit_spec : ∀ v < 16,
    hexDigitVal (upperHexDigit v) = some v ∧
    isUpperHexDigit (upperHexDigit v) = true ∧
    isHexDigitChar (upperHexDigit v) = true := by decide

theorem isUpperHexDigit_inv {c : Char} (hc : isUpperHexDigit c = true) :
    ∃ v, v < 16 ∧ hexDigitVal c = some v ∧ upperHexDigit v = c := by
  simp only [isUpperHexDigit, Bool.or_eq_true, Bool.and_eq_true,
    decide_eq_true_eq] at hc
  rcases hc with ⟨h1, h2⟩ | ⟨h1, h2⟩
  · refine ⟨c.toNat - 48, by omega, ?_, ?_⟩
    · have hcond : (48 ≤ c.toNat && c.toNat ≤ 57) = true := by simp; omega
      simp [hexDigitVal, hcond]
    · unfold upperHexDigit
      rw [if_pos (by omega)]
      have h48 : 48 + (c.toNat - 48) = c.toNat := by omega
      rw [h48, Char.ofNat_toNat]
  · refine ⟨c.toNat - 55, by omega, ?_, ?_⟩
    · have hc1 : (48 ≤ c.toNat && c.toNat ≤ 57) = false := by simp; omega
      have hc2 : (97 ≤ c.toNat && c.toNat ≤ 102) = false := by simp; omega
      have hc3 : (65 ≤ c.toNat && c.toNat ≤ 70) = true := by simp; omega
      simp [hexDigitVal, hc1, hc2, hc3]
    · unfold upperHexDigit
      rw [if_neg (by omega)]
      have h55 : 55 + (c.toNat - 55) = c.toNat := by omega
      rw [h55, Char.ofNat_toNat]

theorem hexDigitVal_some {c : Char} (h : isHexDigitChar c = true) :
    ∃ v, v < 16 ∧ hexDigitVal c = some v := by
  simp only [isHexDigitChar, Bool.or_eq_true, Bool.and_eq_true,
    decide_eq_true_eq] at h
  rw [or_assoc] at h
  unfold hexDigitVal
  rcases h with ⟨h1, h2⟩ | ⟨h1, h2⟩ | ⟨h1, h2⟩
  · exact ⟨c.toNat - 48, by omega, by rw [if_pos (by simp; omega)]⟩
  · refine ⟨c.toNat - 87, by omega, ?_⟩
    rw [if_neg (by simp; omega), if_pos (by simp; omega)]
  · refine ⟨c.toNat - 55, by omega, ?_⟩
    rw [if_neg (by simp; omega), if_neg (by simp; omega), if_pos (by simp; omega)]

theorem parseHexByte_pair {c1 c2 : Char} {a b : Nat}
    (h1 : hexDigitVal c1 = some a) (h2 : hexDigitVal c2 = some b) :
    parseHexByte [c1, c2] = 16 * a + b := by
  simp [parseHexByte, h1, h2]

theorem byteToHex2_digits {a b : Nat} (_ha : a < 16) (hb : b < 16) :
    byteToHex2 (16 * a + b) = [upperHexDigit a, upperHexDigit b] := by
  unfold byteToHex2
  have h1 : (16 * a + b) / 16 = a := by omega
  have h2 : (16 * a + b) % 16 = b := by omega
  rw [h1, h2]

theorem xor255_nibbles : ∀ a < 16, ∀ b < 16,
    255 ^^^ (16 * a + b) = 16 * (15 - a) + (15 - b) := by decide

/-- Complementing one channel of hex digits, at the digit level. -/
theorem complement_pair {c1 c2 : Char} {a b : Nat}
    (h1 : hexDigitVal c1 = some a) (h2 : hexDigitVal c2 = some b)
    (ha : a < 16) (hb : b < 16) :
    byteToHex2 (255 ^^^ parseHexByte [c1, c2]) =
      [upperHexDigit (15 - a), upperHexDigit (15 - b)] := by
  rw [parseHexByte_pair h1 h2, xor255_nibbles a ha b hb,
    byteToHex2_digits (by omega) (by omega)]

/-- `ComplementHex` on an explicit `#`-led six-digit string, digit by
digit. -/
theorem complementHex_digits {d1 d2 d3 d4 d5 d6 : Char} {a1 a2 a3 a4 a5 a6 : Nat}
    (h1 : hexDigitVal d1 = some a1) (h2 : hexDigitVal d2 = some a2)
    (h3 : hexDigitVal d3 = some a3) (h4 : hexDigitVal d4 = some a4)
    (h5 : hexDigitVal d5 = some a5) (h6 : hexDigitVal d6 = some a6)
    (b1 : a1 < 16) (b2 : a2 < 16) (b3 : a3 < 16)
    (b4 : a4 < 16) (b5 : a5 < 16) (b6 : a6 < 16) :
    ComplementHex ['#', d1, d2, d3, d4, d5, d6] =
      ['#', upperHexDigit (15 - a1), upperHexDigit (15 - a2),
       upperHexDigit (15 - a3), upperHexDigit (15 - a4),
       upperHexDigit (15 - a5), upperHexDigit (15 - a6)] := by
  show '#' :: (byteToHex2 (255 ^^^ parseHexByte [d1, d2]) ++
      byteToHex2 (255 ^^^ parseHexByte [d3, d4]) ++
      byteToHex2 (255 ^^^ parseHexByte [d5, d6])) = _
  rw [complement_pair h1 h2 b1 b2, complement_pair h3 h4 b3 b4,
    complement_pair h5 h6 b5 b6]
  rfl

/-- Claim C8, counterexample.  The claim's involution fails on the valid
6-digit hex string `#abcdef` (lower case): complementing twice yields
the upper-cased `#ABCDEF`, not the original string. -/
theorem c8_involution_counterexample :
    IsHexcolour ("#abcdef".toList) = true ∧
    ComplementHex (ComplementHex ("#abcdef".toList)) = "#ABCDEF".toList ∧
    ComplementHex (ComplementHex ("#abcdef".toList)) ≠ "#abcdef".toList := by
  exact ⟨by decide, by decide, by decide⟩

/-- Claim C8, amended.  `ComplementHex` is total on valid 6-digit hex
colours: for arbitrary hex digits (either case) it returns a valid
`#`-led 6-digit hex string whose three channels are the bitwise
complements (`0xFF XOR v`) of the input channels; and it is an
involution on the strings whose digits are uppercase (its own output
alphabet) — on lowercase digits the double complement returns the
upper-cased string instead, as the counterexample shows. -/
theorem c8_complement_amended (d1 d2 d3 d4 d5 d6 : Char)
    (h1 : isHexDigitChar d1 = true) (h2 : isHexDigitChar d2 = true)
    (h3 : isHexDigitChar d3 = true) (h4 : isHexDigitChar d4 = true)
    (h5 : isHexDigitChar d5 = true) (h6 : isHexDigitChar d6 = true) :
    IsHexcolour (ComplementHex ['#', d1, d2, d3, d4, d5, d6]) = true ∧
    (ComplementHex ['#', d1, d2, d3, d4, d5, d6]).length = 7 ∧
    parseHexByte (goSlice (ComplementHex ['#', d1, d2, d3, d4, d5, d6]) 1 3) =
      255 ^^^ parseHexByte [d1, d2] ∧
    parseHexByte (goSlice (ComplementHex ['#', d1, d2, d3, d4, d5, d6]) 3 5) =
      255 ^^^ parseHexByte [d3, d4] ∧
    parseHexByte (goSlice (ComplementHex ['#', d1, d2, d3, d4, d5, d6]) 5 7) =
      255 ^^^ parseHexByte [d5, d6] ∧
    (isUpperHexDigit d1 = true → isUpperHexDigit d2 = true →
     isUpperHexDigit d3 = true → isUpperHexDigit d4 = true →
     isUpperHexDigit d5 = true → isUpperHexDigit d6 = true →
     ComplementHex (ComplementHex ['#', d1, d2, d3, d4, d5, d6]) =
       ['#', d1, d2, d3, d4, d5, d6]) := by
  obtain ⟨a1, b1, hv1⟩ := hexDigitVal_some h1
  obtain ⟨a2, b2, hv2⟩ := hexDigitVal_some h2
  obtain ⟨a3, b3, hv3⟩ := hexDigitVal_some h3
  obtain ⟨a4, b4, hv4⟩ := hexDigitVal_some h4
  obtain ⟨a5, b5, hv5⟩ := hexDigitVal_some h5
  obtain ⟨a6, b6, hv6⟩ := hexDigitVal_some h6
  have hC := complementHex_digits hv1 hv2 hv3 hv4 hv5 hv6 b1 b2 b3 b4 b5 b6
  have spec1 := upperHexDigit_spec (15 - a1) (by omega)
  have spec2 := upperHexDigit_spec (15 - a2) (by omega)
  have spec3 := upperHexDigit_spec (15 - a3) (by omega)
  have spec4 := upperHexDigit_spec (15 - a4) (by omega)
  have spec5 := upperHexDigit_spec (15 - a5) (by omega)
  have spec6 := upperHexDigit_spec (15 - a6) (by omega)
  refine ⟨?_, ?_, ?_, ?_, ?_, ?_⟩
  · rw [hC]
    simp [IsHexcolour, spec1.2.2, spec2.2.2, spec3.2.2, spec4.2.2,
      spec5.2.2, spec6.2.2]
  · rw [hC]; rfl
  · rw [hC]
    show parseHexByte [upperHexDigit (15 - a1), upperHexDigit (15 - a2)] = _
    rw [parseHexByte_pair spec1.1 spec2.1, parseHexByte_pair hv1 hv2,
      xor255_nibbles a1 b1 a2 b2]
  · rw [hC]
    show parseHexByte [upperHexDigit (15 - a3), upperHexDigit (15 - a4)] = _
    rw [parseHexByte_pair spec3.1 spec4.1, parseHexByte_pair hv3 hv4,
      xor255_nibbles a3 b3 a4 b4]
  · rw [hC]
    show parseHexByte [upperHexDigit (15 - a5), upperHexDigit (15 - a6)] = _
    rw [parseHexByte_pair spec5.1 spec6.1, parseHexByte_pair hv5 hv6,
      xor255_nibbles a5 b5 a6 b6]
  · intro u1 u2 u3 u4 u5 u6
    obtain ⟨w1, hw1, hval1, hup1⟩ := isUpperHexDigit_inv u1
    obtain ⟨w2, hw2, hval2, hup2⟩ := isUpperHexDigit_inv u2
    obtain ⟨w3, hw3, hval3, hup3⟩ := isUpperHexDigit_inv u3
    obtain ⟨w4, hw4, hval4, hup4⟩ := isUpperHexDigit_inv u4
    obtain ⟨w5, hw5, hval5, hup5⟩ := isUpperHexDigit_inv u5
    obtain ⟨w6, hw6, hval6, hup6⟩ := isUpperHexDigit_inv u6
    rw [hv1] at hval1; rw [hv2] at hval2; rw [hv3] at hval3
    rw [hv4] at hval4; rw [hv5] at hval5; rw [hv6] at hval6
    rw [← Option.some.inj hval1] at hup1
    rw [← Option.some.inj hval2] at hup2
    rw [← Option.some.inj hval3] at hup3
    rw [← Option.some.inj hval4] at hup4
    rw [← Option.some.inj hval5] at hup5
    rw [← Option.some.inj hval6] at hup6
    rw [hC, complementHex_digits spec1.1 spec2.1 spec3.1 spec4.1 spec5.1 spec6.1
      (by omega) (by omega) (by omega) (by omega) (by omega) (by omega)]
    have e1 : 15 - (15 - a1) = a1 := by omega
    have e2 : 15 - (15 - a2) = a2 := by omega
    have e3 : 15 - (15 - a3) = a3 := by omega
    have e4 : 15 - (15 - a4) = a4 := by omega
    have e5 : 15 - (15 - a5) = a5 := by omega
    have e6 : 15 - (15 - a6) = a6 := by omega
    rw [e1, e2, e3, e4, e5, e6, hup1, hup2, hup3, hup4, hup5, hup6]

/-- Witness for C8 (amended): the involution evaluated at `#ABCDEF`. -/
theorem c8_complement_amended_witness :
    ComplementHex (ComplementHex ("#ABCDEF".toList)) = "#ABCDEF".toList := by
  have h := c8_complement_amended 'A' 'B' 'C' 'D' 'E' 'F'
    (by decide) (by decide) (by decide) (by decide) (by decide) (by decide)
  exact h.2.2.2.2.2 (by decide) (by decide) (by decide) (by decide)
    (by decide) (by decide)

theorem goIsSpace_false_of_hexDigit {c : Char} (h : isHexDigitChar c = true) :
    goIsSpace c = false := by
  simp only [isHexDigitChar, Bool.or_eq_true, Bool.and_eq_true,
    decide_eq_true_eq] at h
  simp only [goIsSpace, Bool.or_eq_false_iff, Bool.and_eq_false_iff,
    decide_eq_false_iff_not]
  omega

theorem goToLower_hexDigit {c : Char} (h : isHexDigitChar c = true) :
    isHexDigitChar (goToLower c) = true := by
  simp only [isHexDigitChar, Bool.or_eq_true, Bool.and_eq_true,
    decide_eq_true_eq] at h
  rw [or_assoc] at h
  unfold goToLower
  rcases h with ⟨h1, h2⟩ | ⟨h1, h2⟩ | ⟨h1, h2⟩
  · rw [if_neg (by simp; omega)]
    simp only [isHexDigitChar, Bool.or_eq_true, Bool.and_eq_true,
      decide_eq_true_eq]
    omega
  · rw [if_neg (by simp; omega)]
    simp only [isHexDigitChar, Bool.or_eq_true, Bool.and_eq_true,
      decide_eq_true_eq]
    omega
  · rw [if_pos (by simp; omega)]
    have hval : (Char.ofNat (c.toNat + 32)).toNat = c.toNat + 32 :=
      toNat_ofNat_ascii (by omega)
    simp only [isHexDigitChar, Bool.or_eq_true, Bool.and_eq_true,
      decide_eq_true_eq, hval]
    omega

theorem dropWhile_eq_self_of_all {p : Char → Bool} {s : List Char}
    (h : ∀ c ∈ s, p c = false) : s.dropWhile p = s := by
  cases s with
  | nil => rfl
  | cons a l =>
    rw [List.dropWhile_cons, h a (List.mem_cons_self a l)]
    simp

theorem goTrimSpace_eq_self {s : List Char}
    (h : ∀ c ∈ s, goIsSpace c = false) : goTrimSpace s = s := by
  unfold goTrimSpace
  rw [dropWhile_eq_self_of_all h,
    dropWhile_eq_self_of_all (fun c hc => h c (List.mem_reverse.mp hc)),
    List.reverse_reverse]

theorem assocLookup_mem :
    ∀ (l : List (List Char × List Char)) (k v : List Char),
      assocLookup l k = some v → (k, v) ∈ l := by
  intro l
  induction l with
  | nil => intro k v h; exact absurd h (by simp [assocLookup])
  | cons kv rest ih =>
    intro k v h
    obtain ⟨k0, v0⟩ := kv
    unfold assocLookup at h
    split at h
    · simp only [Option.some.injEq] at h
      subst h
      rename_i hk
      subst hk
      exact List.mem_cons_self _ _
    · exact List.mem_cons_of_mem _ (ih k v h)

/-- No key of the colour-name table is hex syntax. -/
theorem tableKeys_not_hex :
    ∀ kv ∈ namedcolourHex, IsHexcolour kv.1 = false := by decide

/-- Every value of the colour-name table is a `#`-led 6-digit hex
string, entirely in uppercase digits. -/
theorem tableValues_valid :
    ∀ kv ∈ namedcolourHex,
      IsHexcolour kv.2 = true ∧ kv.2.length = 7 ∧
      specUppercaseHex kv.2 = true := by decide

theorem expandHexcolour_of_length7 {t : List Char} (h7 : t.length = 7) :
    expandHexcolour t = t := by
  rcases t with _ | ⟨c1, _ | ⟨c2, _ | ⟨c3, _ | ⟨c4, _ | ⟨c5, t⟩⟩⟩⟩⟩ <;>
    first
    | rfl
    | simp at h7

/-- Expansion sends every valid hex colour to a valid 7-character
(`#` + six digits) hex colour. -/
theorem expandHexcolour_valid {t : List Char} (h : IsHexcolour t = true) :
    IsHexcolour (expandHexcolour t) = true ∧ (expandHexcolour t).length = 7 := by
  have hh := h
  simp only [IsHexcolour, Bool.and_eq_true, Bool.or_eq_true,
    decide_eq_true_eq] at hh
  obtain ⟨⟨hhead, hlen⟩, hdig⟩ := hh
  rcases hlen with h7 | h4
  · rw [expandHexcolour_of_length7 h7]
    exact ⟨h, h7⟩
  · rcases t with _ | ⟨c0, _ | ⟨a, _ | ⟨b, _ | ⟨c, _ | ⟨d, t⟩⟩⟩⟩⟩ <;>
      simp at h4
    simp only [List.head?_cons, Option.some.injEq] at hhead
    subst hhead
    simp only [List.tail_cons, List.all_cons, List.all_nil,
      Bool.and_eq_true] at hdig
    refine ⟨?_, rfl⟩
    have hexp : expandHexcolour ['#', a, b, c] = ['#', a, a, b, b, c, c] := rfl
    rw [hexp]
    simp [IsHexcolour, hdig.1, hdig.2.1, hdig.2.2.1]

/-- Claim C7, counterexample.  `ToHex` on the valid hex spec `#FFF`
returns the lower-case `#ffffff`, which is not a 6-digit *uppercase*
hex string as the claim requires. -/
theorem c7_uppercase_counterexample :
    ToHex ("#FFF".toList) = "#ffffff".toList ∧
    specUppercaseHex (ToHex ("#FFF".toList)) = false ∧
    ToHex ("#FFF".toList) ≠ "#FFFFFF".toList := by
  exact ⟨by decide, by decide, by decide⟩

/-- Claim C7, amended.  `ToHex` accepts a case-insensitive name from the
fixed 20-entry table (≥ 18 distinct names) and 3- or 6-digit `#`-hex
strings, and for every input that is neither it returns the
empty-string sentinel.  The result for a named colour is the table's
uppercase hex value; the result for a hex input is the *lower-cased*
expanded 6-digit hex (not the uppercase form the original claim
states); every non-sentinel result is a valid `#`-led 6-digit hex
string. -/
theorem c7_tohex_amended :
    (namedcolourHex.length = 20 ∧ (namedcolourHex.map Prod.fst).Nodup) ∧
    (∀ s hex : List Char,
      assocLookup namedcolourHex (lowerStr (goTrimSpace s)) = some hex →
      ToHex s = hex) ∧
    (∀ d1 d2 d3 d4 d5 d6 : Char,
      isHexDigitChar d1 = true → isHexDigitChar d2 = true →
      isHexDigitChar d3 = true → isHexDigitChar d4 = true →
      isHexDigitChar d5 = true → isHexDigitChar d6 = true →
      ToHex ['#', d1, d2, d3, d4, d5, d6] =
        ['#', goToLower d1, goToLower d2, goToLower d3,
         goToLower d4, goToLower d5, goToLower d6]) ∧
    (∀ a b c : Char,
      isHexDigitChar a = true → isHexDigitChar b = true →
      isHexDigitChar c = true →
      ToHex ['#', a, b, c] =
        ['#', goToLower a, goToLower a, goToLower b,
         goToLower b, goToLower c, goToLower c]) ∧
    (∀ s : List Char, ToHex s = [] ∨
      (IsHexcolour (ToHex s) = true ∧ (ToHex s).length = 7)) := by
  refine ⟨⟨by decide, by decide⟩, ?_, ?_, ?_, ?_⟩
  · intro s hex hlk
    have hmem := assocLookup_mem _ _ _ hlk
    have hnothex := tableKeys_not_hex _ hmem
    simp only [ToHex]
    rw [if_neg (by simp [hnothex]), hlk]
  · intro d1 d2 d3 d4 d5 d6 h1 h2 h3 h4 h5 h6
    have hsp : ∀ c ∈ ['#', d1, d2, d3, d4, d5, d6], goIsSpace c = false := by
      intro c hc
      simp only [List.mem_cons, List.not_mem_nil, or_false] at hc
      rcases hc with rfl | rfl | rfl | rfl | rfl | rfl | rfl
      · decide
      · exact goIsSpace_false_of_hexDigit h1
      · exact goIsSpace_false_of_hexDigit h2
      · exact goIsSpace_false_of_hexDigit h3
      · exact goIsSpace_false_of_hexDigit h4
      · exact goIsSpace_false_of_hexDigit h5
      · exact goIsSpace_false_of_hexDigit h6
    have hsharp : goToLower '#' = '#' := by decide
    have hkey : lowerStr (goTrimSpace ['#', d1, d2, d3, d4, d5, d6]) =
        ['#', goToLower d1, goToLower d2, goToLower d3,
         goToLower d4, goToLower d5, goToLower d6] := by
      rw [goTrimSpace_eq_self hsp]
      simp [lowerStr, hsharp]
    have hvalid : IsHexcolour ['#', goToLower d1, goToLower d2, goToLower d3,
        goToLower d4, goToLower d5, goToLower d6] = true := by
      simp [IsHexcolour, goToLower_hexDigit h1, goToLower_hexDigit h2,
        goToLower_hexDigit h3, goToLower_hexDigit h4,
        goToLower_hexDigit h5, goToLower_hexDigit h6]
    simp only [ToHex, hkey]
    rw [if_pos (by simp [hvalid])]
    rfl
  · intro a b c h1 h2 h3
    have hsp : ∀ x ∈ ['#', a, b, c], goIsSpace x = false := by
      intro x hx
      simp only [List.mem_cons, List.not_mem_nil, or_false] at hx
      rcases hx with rfl | rfl | rfl | rfl
      · decide
      · exact goIsSpace_false_of_hexDigit h1
      · exact goIsSpace_false_of_hexDigit h2
      · exact goIsSpace_false_of_hexDigit h3
    have hsharp : goToLower '#' = '#' := by decide
    have hkey : lowerStr (goTrimSpace ['#', a, b, c]) =
        ['#', goToLower a, goToLower b, goToLower c] := by
      rw [goTrimSpace_eq_self hsp]
      simp [lowerStr, hsharp]
    have hvalid : IsHexcolour ['#', goToLower a, goToLower b, goToLower c] = true := by
      simp [IsHexcolour, goToLower_hexDigit h1, goToLower_hexDigit h2,
        goToLower_hexDigit h3]
    simp only [ToHex, hkey]
    rw [if_pos (by simp [hvalid])]
    rfl
  · intro s
    by_cases hhex : IsHexcolour (lowerStr (goTrimSpace s)) = true
    · right
      simp only [ToHex]
      rw [if_pos (by simp [hhex])]
      exact expandHexcolour_valid hhex
    · have hhexf : IsHexcolour (lowerStr (goTrimSpace s)) = false :=
        Bool.not_eq_true _ ▸ (by simpa using hhex)
      cases hlk : assocLookup namedcolourHex (lowerStr (goTrimSpace s)) with
      | none =>
        left
        simp only [ToHex]
        rw [if_neg (by simp [hhexf]), hlk]
      | some hex =>
        right
        have hv := tableValues_valid _ (assocLookup_mem _ _ _ hlk)
        simp only [ToHex]
        rw [if_neg (by simp [hhexf]), hlk]
        exact ⟨hv.1, hv.2.1⟩

/-- Witness for C7 (amended): a named colour in unusual casing resolves
to the table value, and a mixed-case 6-digit hex input resolves to its
lower-cased form. -/
theorem c7_tohex_amended_witness :
    ToHex ("RED".toList) = "#FF0000".toList ∧
    ToHex ("#AbCdEf".toList) = "#abcdef".toList := by
  constructor
  · exact c7_tohex_amended.2.1 ("RED".toList) ("#FF0000".toList) (by decide)
  · have h := c7_tohex_amended.2.2.1 'A' 'b' 'C' 'd' 'E' 'f'
      (by decide) (by decide) (by decide) (by decide) (by decide) (by decide)
    have h2 : ['#', goToLower 'A', goToLower 'b', goToLower 'C',
        goToLower 'd', goToLower 'E', goToLower 'f'] = "#abcdef".toList := by decide
    exact h.trans h2

/-! ## C10: where display delimiters are recognized -/

theorem findFirstAux_none {m : Nat → Option Nat} :
    ∀ fuel i, findFirstAux m i fuel = none → ∀ k, k < fuel → m (i + k) = none := by
  intro fuel
  induction fuel with
  | zero => intro i _ k hk; omega
  | succ n ih =>
    intro i h k hk
    unfold findFirstAux at h
    cases hmi : m i with
    | some e => rw [hmi] at h; exact absurd h (by simp)
    | none =>
      rw [hmi] at h
      cases k with
      | zero => simpa using hmi
      | succ k2 =>
        have := ih (i + 1) h k2 (by omega)
        have harith : i + 1 + k2 = i + (k2 + 1) := by omega
        rwa [harith] at this

theorem findFirst_none {m : List Char → Nat → Option Nat} {s : List Char}
    (h : findFirst m s = none) : ∀ p, p ≤ s.length → m s p = none := by
  intro p hp
  have := findFirstAux_none (s.length + 1) 0 h p (by omega)
  simpa using this

theorem get?_append_len : ∀ (pre rest : List Char) (k : Nat),
    (pre ++ rest).get? (pre.length + k) = rest.get? k := by
  intro pre
  induction pre with
  | nil => intro rest k; simp
  | cons p pre' ih =>
    intro rest k
    have harith : (p :: pre').length + k = (pre'.length + k) + 1 := by
      simp [List.length_cons]; omega
    rw [harith]
    simpa using ih rest k

/-- A `\[` occurrence is an opener match at its own position, no matter
what surrounds it. -/
theorem matchStartDMAt_bracket (pre suf : List Char) :
    matchStartDMAt (pre ++ '\\' :: '[' :: suf) pre.length =
      some (pre.length + 2) := by
  have hg0 : (pre ++ '\\' :: '[' :: suf).get? pre.length = some '\\' := by
    have := get?_append_len pre ('\\' :: '[' :: suf) 0
    simpa using this
  have hg1 : (pre ++ '\\' :: '[' :: suf).get? (pre.length + 1) = some '[' := by
    simpa using get?_append_len pre ('\\' :: '[' :: suf) 1
  cases pre with
  | nil =>
    simp only [List.length_nil, List.nil_append] at hg0 hg1 ⊢
    rfl
  | cons p0 pre' =>
    simp only [List.length_cons] at hg0 hg1 ⊢
    unfold matchStartDMAt
    rw [hg0, hg1]
    simp [reSpace]

/-- A `\]` occurrence is a closer match at its own position, no matter
what surrounds it. -/
theorem matchEndDMAt_bracket (pre suf : List Char) :
    matchEndDMAt (pre ++ '\\' :: ']' :: suf) pre.length =
      some (pre.length + 2) := by
  have hg0 : (pre ++ '\\' :: ']' :: suf).get? pre.length = some '\\' := by
    simpa using get?_append_len pre ('\\' :: ']' :: suf) 0
  have hg1 : (pre ++ '\\' :: ']' :: suf).get? (pre.length + 1) = some ']' := by
    simpa using get?_append_len pre ('\\' :: ']' :: suf) 1
  unfold matchEndDMAt
  rw [hg0, hg1]
  simp

theorem matchStartDMAt_shape {s : List Char} {i e : Nat}
    (h : matchStartDMAt s i = some e) :
    (i = 0 ∧ s.get? 0 = some '$' ∧ s.get? 1 = some '$') ∨
    ((s.get? i).elim false reSpace = true ∧
      s.get? (i + 1) = some '$' ∧ s.get? (i + 2) = some '$') ∨
    (s.get? i = some '\\' ∧ s.get? (i + 1) = some '[') := by
  unfold matchStartDMAt at h
  split at h
  · rename_i hc
    simp only [Bool.and_eq_true, decide_eq_true_eq] at hc
    exact Or.inl ⟨hc.1.1, hc.1.2, hc.2⟩
  · split at h
    · rename_i hc
      simp only [Bool.and_eq_true, decide_eq_true_eq] at hc
      exact Or.inr (Or.inl ⟨hc.1.1, hc.1.2, hc.2⟩)
    · split at h
      · rename_i hc
        simp only [Bool.and_eq_true, decide_eq_true_eq] at hc
        exact Or.inr (Or.inr hc)
      · exact absurd h (by simp)

theorem matchEndDMAt_shape {s : List Char} {i e : Nat}
    (h : matchEndDMAt s i = some e) :
    (s.get? i = some '$' ∧ s.get? (i + 1) = some '$' ∧
      (i + 2 = s.length ∨ (s.get? (i + 2)).elim false reSpace = true)) ∨
    (s.get? i = some '\\' ∧ s.get? (i + 1) = some ']') := by
  unfold matchEndDMAt at h
  split at h
  · rename_i hc
    simp only [Bool.and_eq_true, decide_eq_true_eq] at hc
    split at h
    · exact Or.inl ⟨hc.1, hc.2, Or.inl (by assumption)⟩
    · split at h
      · exact Or.inl ⟨hc.1, hc.2, Or.inr (by assumption)⟩
      · exact absurd h (by simp)
  · split at h
    · rename_i hc
      simp only [Bool.and_eq_true, decide_eq_true_eq] at hc
      exact Or.inr hc
    · exact absurd h (by simp)

/-- Claim C10.  In streaming mode a `$$` opener is recognized only at the
start of a line or immediately after a white-space character, and a
`$$` closer only at the end of the line or immediately before white
space, whereas `\[` and `\]` are recognized at any position;
consequently a `$$` directly attached to preceding non-space text, as
in `text$$x`, does not open a display-math block and the line is
handled by the inline-math rules. -/
theorem c10_display_delimiter_positions :
    (∀ (s : List Char) (i e : Nat), findFirst matchStartDMAt s = some (i, e) →
      (i = 0 ∧ s.get? 0 = some '$' ∧ s.get? 1 = some '$') ∨
      ((s.get? i).elim false reSpace = true ∧
        s.get? (i + 1) = some '$' ∧ s.get? (i + 2) = some '$') ∨
      (s.get? i = some '\\' ∧ s.get? (i + 1) = some '[')) ∧
    (∀ (s : List Char) (i e : Nat), findFirst matchEndDMAt s = some (i, e) →
      (s.get? i = some '$' ∧ s.get? (i + 1) = some '$' ∧
        (i + 2 = s.length ∨ (s.get? (i + 2)).elim false reSpace = true)) ∨
      (s.get? i = some '\\' ∧ s.get? (i + 1) = some ']')) ∧
    (∀ pre suf : List Char,
      findFirst matchStartDMAt (pre ++ '\\' :: '[' :: suf) ≠ none) ∧
    (∀ pre suf : List Char,
      findFirst matchEndDMAt (pre ++ '\\' :: ']' :: suf) ≠ none) ∧
    findFirst matchStartDMAt ("text$$x\n".toList) = none ∧
    normalBranch ("text$$x\n".toList) = .inlineOnly := by
  refine ⟨?_, ?_, ?_, ?_, by decide, by decide⟩
  · intro s i e h
    exact findFirstAux_some (P := fun p e =>
        (p = 0 ∧ s.get? 0 = some '$' ∧ s.get? 1 = some '$') ∨
        ((s.get? p).elim false reSpace = true ∧
          s.get? (p + 1) = some '$' ∧ s.get? (p + 2) = some '$') ∨
        (s.get? p = some '\\' ∧ s.get? (p + 1) = some '['))
      (fun p e hpe => matchStartDMAt_shape hpe) _ _ _ _ h
  · intro s i e h
    exact findFirstAux_some (P := fun p e =>
        (s.get? p = some '$' ∧ s.get? (p + 1) = some '$' ∧
          (p + 2 = s.length ∨ (s.get? (p + 2)).elim false reSpace = true)) ∨
        (s.get? p = some '\\' ∧ s.get? (p + 1) = some ']'))
      (fun p e hpe => matchEndDMAt_shape hpe) _ _ _ _ h
  · intro pre suf hnone
    have hb := findFirst_none hnone pre.length (by simp)
    rw [matchStartDMAt_bracket] at hb
    exact absurd hb (by simp)
  · intro pre suf hnone
    have hb := findFirst_none hnone pre.length (by simp)
    rw [matchEndDMAt_bracket] at hb
    exact absurd hb (by simp)

/-- Witness for C10: the shape clauses evaluated at the line
`a $$x` (opener after white space) and at `x$$ b` (closer before white
space), and the bracket clauses at a concrete embedding. -/
theorem c10_display_delimiter_positions_witness :
    ((0 = 0 ∧ ("$$x".toList).get? 0 = some '$' ∧ ("$$x".toList).get? 1 = some '$') ∨
      ((("$$x".toList).get? 0).elim false reSpace = true ∧
        ("$$x".toList).get? 1 = some '$' ∧ ("$$x".toList).get? 2 = some '$') ∨
      (("$$x".toList).get? 0 = some '\\' ∧ ("$$x".toList).get? 1 = some '[')) ∧
    findFirst matchStartDMAt ("ab" ++ "\\[" ++ "cd").toList ≠ none := by
  constructor
  · exact c10_display_delimiter_positions.1 ("$$x".toList) 0 2 (by decide)
  · have h := c10_display_delimiter_positions.2.2.1 ("ab".toList) ("cd".toList)
    simpa using h

/-! ## C5: display precedence and inline non-greediness -/

/-- Whether a segmentation contains two math matches with nothing
between them — i.e. the closing `$` of one match is immediately
followed by the opening `$` of the next, so a `$$` in the source was
consumed as two adjacent inline matches. -/
def hasAdjacentInline : List Seg → Bool
  | .math _ :: .plain [] :: .math _ :: _ => true
  | _ :: rest => hasAdjacentInline rest
  | [] => false

/-- An environment that replaces every successfully "rendered" math
span by its own (trimmed) content, making the recognized contents
directly observable in the output. -/
def envEcho : RenderEnv := ⟨fun c _ => some c, fun i _ => some i, id⟩

/-- Claim C5, counterexample.  The `$$` in the line `$a$$b$` *is*
consumed as two adjacent `$` inline matches (`$a$` then `$b$`): the
segmentation splits the `$$` between the closer of the first match and
the opener of the second, and the streaming dispatch really sends this
line to inline processing.  This refutes the claim's "a `$$` is never
consumed as two adjacent `$` inline matches". -/
theorem c5_adjacent_dollars_counterexample :
    segments goFindInline ("$a$$b$".toList) =
      [.plain [], .math ("$a$".toList), .plain [], .math ("$b$".toList),
       .plain []] ∧
    hasAdjacentInline (segments goFindInline ("$a$$b$".toList)) = true ∧
    normalBranch ("$a$$b$\n".toList) = .inlineOnly ∧
    (processInlineMath envEcho ("$a$$b$".toList)).1 = "ab".toList := by
  exact ⟨by decide, by decide, by decide, by decide⟩

/-- Claim C5, amended.  Inline matching is non-greedy: `$a$ $b$` yields
two inline math segments with contents `a` and `b`, not one segment
`a$ $b`.  A lone `$$` is never parsed as an (empty) inline match.  And
whenever the Normal-mode dispatch finds a display opener whose position
differs from the position of the first display closer, one of the two
display branches takes the line — inline matching never sees the
delimiter.  (A `$$` attached to non-space text on both sides, however,
can be consumed as the closer and opener of two adjacent inline
matches, as the counterexample `$a$$b$` shows; and when the first
opener and closer coincide, as on a bare `$$` line, the line falls
through to inline processing.) -/
theorem c5_precedence_nongreedy_amended :
    segments goFindInline ("$a$ $b$".toList) =
      [.plain [], .math ("$a$".toList), .plain [' '], .math ("$b$".toList),
       .plain []] ∧
    (processInlineMath envEcho ("$a$ $b$".toList)).1 = "a b".toList ∧
    goFindInline ("$$".toList) = none ∧
    (∀ (line : List Char) (s0 s1 : Nat),
      findFirst matchStartDMAt line = some (s0, s1) →
      (∀ e0 e1 : Nat, findFirst matchEndDMAt line = some (e0, e1) → e0 ≠ s0) →
      normalBranch line ≠ .inlineOnly) := by
  refine ⟨by decide, by decide, by decide, ?_⟩
  intro line s0 s1 hs hne
  unfold normalBranch
  rw [hs]
  cases he : findFirst matchEndDMAt line with
  | none => simp
  | some p =>
    obtain ⟨e0, e1⟩ := p
    have hne0 := hne e0 e1 he
    by_cases hlt : e0 < s0
    · simp [hlt]
    · have hgt : s0 < e0 := by omega
      simp [hlt, hgt]

/-- Witness for C5 (amended): the precedence clause evaluated on the
line `$$x`, which has an opener at position 0 and no closer; the
dispatch takes a display branch. -/
theorem c5_precedence_nongreedy_amended_witness :
    normalBranch ("$$x".toList) ≠ .inlineOnly := by
  apply c5_precedence_nongreedy_amended.2.2.2 ("$$x".toList) 0 2 (by decide)
  intro e0 e1 hh
  have hnone : findFirst matchEndDMAt ("$$x".toList) = none := by decide
  rw [hnone] at hh
  exact absurd hh (by simp)

/-! ## C6: empty and whitespace-only math bodies -/

/-- A concrete environment whose renderer and encoder always succeed,
producing the fixed marker `KIT`, with identity formatting. -/
def envKit : RenderEnv :=
  ⟨fun _ _ => some ("IMG".toList), fun _ _ => some ("KIT".toList), id⟩

/-- Claim C6, counterexample.  The display span `$$ $$` has a
whitespace-only body, yet it does not pass through unchanged and the
renderer *is* called: the line falls through to inline matching, which
consumes `$$ $` with trimmed body `$` and hands it to the renderer —
with a succeeding renderer the output is the rendered marker plus the
leftover `$`, and with a failing renderer a render-failure diagnostic
for content `$` is emitted.  This refutes "for every math span with an
empty or whitespace-only body ... the literal delimiter text passes
through unchanged and no renderer call is made". -/
theorem c6_empty_display_counterexample :
    processStream envKit false [("$$ $$".toList)] =
      ⟨"KIT$".toList, [], false⟩ ∧
    processStream envNoRender false [("$$ $$".toList)] =
      ⟨"$$ $$".toList, [.renderInlineFailed ['$']], false⟩ ∧
    ("KIT$".toList : List Char) ≠ "$$ $$".toList := by
  exact ⟨by decide, by decide, by decide⟩

/-- Claim C6, amended.  For every *inline* math span (`$...$` or
`\(...\)`) whose body is empty or whitespace-only, the span is treated
as no match: the literal delimiter text passes through unchanged and
the renderer is never consulted for that span (the handler's result is
the same for every environment).  Display spans with whitespace-only
bodies are not so protected, as the counterexample shows. -/
theorem c6_empty_body_passthrough_amended :
    (∀ (env : RenderEnv) (m : List Char),
      goTrimSpace (goSlice m 1 (m.length - 1)) = [] →
      inlineHandlerD env m = (m, [])) ∧
    (∀ (env : RenderEnv) (m : List Char),
      goTrimSpace (goSlice m 2 (m.length - 2)) = [] →
      inlineHandlerP env m = (m, [])) ∧
    (∀ env : RenderEnv,
      (processInlineMath env ("x $ $ y \\( \\) z".toList)).1 =
        "x $ $ y \\( \\) z".toList ∧
      (processInlineMath env ("x $ $ y \\( \\) z".toList)).2 = []) := by
  refine ⟨?_, ?_, ?_⟩
  · intro env m hm
    unfold inlineHandlerD
    dsimp only
    rw [if_pos hm]
  · intro env m hm
    unfold inlineHandlerP
    dsimp only
    rw [if_pos hm]
  · intro env
    have hsegD : segments goFindInline ("x $ $ y \\( \\) z".toList) =
        [.plain ("x ".toList), .math ("$ $".toList),
         .plain (" y \\( \\) z".toList)] := by decide
    have hsegP : segments goFindParen ("x $ $ y \\( \\) z".toList) =
        [.plain ("x $ $ y ".toList), .math ("\\( \\)".toList),
         .plain (" z".toList)] := by decide
    have hmD : inlineHandlerD env ("$ $".toList) = ("$ $".toList, []) := by
      unfold inlineHandlerD
      dsimp only
      rw [if_pos (by decide)]
    have hmP : inlineHandlerP env ("\\( \\)".toList) = ("\\( \\)".toList, []) := by
      unfold inlineHandlerP
      dsimp only
      rw [if_pos (by decide)]
    have h1 : replaceAll goFindInline (inlineHandlerD env)
        ("x $ $ y \\( \\) z".toList) = ("x $ $ y \\( \\) z".toList, []) := by
      rw [replaceAll_segments, hsegD]
      simp only [segsOutStr, segsOutDiags, List.map_cons, List.map_nil,
        segOut, hmD, List.flatten_cons, List.flatten_nil]
      decide
    have h2 : replaceAll goFindParen (inlineHandlerP env)
        ("x $ $ y \\( \\) z".toList) = ("x $ $ y \\( \\) z".toList, []) := by
      rw [replaceAll_segments, hsegP]
      simp only [segsOutStr, segsOutDiags, List.map_cons, List.map_nil,
        segOut, hmP, List.flatten_cons, List.flatten_nil]
      decide
    have hpair : processInlineMath env ("x $ $ y \\( \\) z".toList) =
        ("x $ $ y \\( \\) z".toList, []) := by
      simp only [processInlineMath, h1, h2, List.append_nil]
    exact ⟨by rw [hpair], by rw [hpair]⟩

/-- Witness for C6 (amended): the inline-handler clauses evaluated on
the concrete spans `$ $` and `\( \)` in a succeeding environment, and
the end-to-end passthrough in that environment. -/
theorem c6_empty_body_passthrough_amended_witness :
    inlineHandlerD envKit ("$ $".toList) = ("$ $".toList, []) ∧
    inlineHandlerP envKit ("\\( \\)".toList) = ("\\( \\)".toList, []) ∧
    (processInlineMath envKit ("x $ $ y \\( \\) z".toList)).1 =
      "x $ $ y \\( \\) z".toList := by
  refine ⟨?_, ?_, ?_⟩
  · exact c6_empty_body_passthrough_amended.1 envKit ("$ $".toList) (by decide)
  · exact c6_empty_body_passthrough_amended.2.1 envKit ("\\( \\)".toList) (by decide)
  · exact (c6_empty_body_passthrough_amended.2.2 envKit).1

/-! ## C4: the canonical multi-line display block -/

/-- Claim C4, code-bug evidence.  Feeding `"$$\n\\sum_{i=1}^n i\n$$"`
line by line, the streaming segmenter never enters `InDisplayMath`: the
first line `$$\n` matches `StartDisplayMath` at index 0 (via `^`) *and*
`EndDisplayMath` at index 0 (the `$$` is followed by the newline, a
`\s`), both display-branch guards demand strict index inequality, so
the line falls through to plain inline processing.  The state stays
`Normal` on every line, no `DisplayMath` segment is emitted (no render
call happens: the always-failing environment records no diagnostic),
and the three lines pass through as plain text. -/
theorem c4_display_block_never_opens :
    stateTrace ⟨false, []⟩
      [("$$\n".toList), ("\\sum_{i=1}^n i\n".toList), ("$$".toList)] =
      [some ⟨false, []⟩, some ⟨false, []⟩, some ⟨false, []⟩] ∧
    findFirst matchStartDMAt ("$$\n".toList) = some (0, 2) ∧
    findFirst matchEndDMAt ("$$\n".toList) = some (0, 3) ∧
    normalBranch ("$$\n".toList) = .inlineOnly ∧
    processStream envNoRender false
      [("$$\n".toList), ("\\sum_{i=1}^n i\n".toList), ("$$".toList)] =
      ⟨"$$\n\\sum_{i=1}^n i\n$$".toList, [], false⟩ := by
  exact ⟨by decide, by decide, by decide, by decide, by decide⟩

/-! ## C3: EOF inside a display block -/

/-- Claim C3, counterexample.  On the claim's own input `$$unterminated`
(no closing delimiter before EOF) in a non-debug run, the output does
contain the literal `$$unterminated` unchanged, but *no* diagnostic of
any kind is written to the error side channel — the EOF warning in the
code is guarded by the debug flag, so "a warning-class diagnostic is
logged" fails. -/
theorem c3_eof_diagnostic_counterexample :
    (processStream envNoRender false [("$$unterminated".toList)]).out =
      "$$unterminated".toList ∧
    (processStream envNoRender false [("$$unterminated".toList)]).diags = [] := by
  exact ⟨by decide, by decide⟩

/-- Claim C3, amended.  If end of input is reached while the streaming
segmenter is in the `InDisplayMath` state, the buffered content is
emitted verbatim prefixed with a `$$` opening delimiter, so input is
never silently dropped; the warning diagnostic is logged *only when
debug mode is enabled*.  In particular, for input `$$unterminated` the
loop ends in `InDisplayMath` with buffer `unterminated`, having written
nothing and logged nothing. -/
theorem c3_eof_unterminated_amended :
    (∀ (env : RenderEnv) (debug : Bool) (lines : List (List Char))
       (st : StreamState) (o : List Char) (d : List Diag),
      runLines env ⟨false, []⟩ lines = .ok st o d →
      st.inDisplay = true →
      processStream env debug lines =
        ⟨o ++ '$' :: '$' :: st.buffer,
         d ++ (if debug then [.eofUnterminatedWarning] else []), false⟩) ∧
    (∀ env : RenderEnv,
      runLines env ⟨false, []⟩ [("$$unterminated".toList)] =
        .ok ⟨true, "unterminated".toList⟩ [] []) := by
  constructor
  · intro env debug lines st o d hrun hdisp
    simp only [processStream, hrun, hdisp, if_true]
  · intro env
    rfl

/-- Witness for C3 (amended): the EOF handler evaluated on the claim's
input in a debug run — output `$$unterminated`, one warning logged. -/
theorem c3_eof_unterminated_amended_witness :
    processStream envNoRender true [("$$unterminated".toList)] =
      ⟨"$$unterminated".toList, [.eofUnterminatedWarning], false⟩ := by
  have h := c3_eof_unterminated_amended.1 envNoRender true
    [("$$unterminated".toList)] ⟨true, "unterminated".toList⟩ [] []
    (c3_eof_unterminated_amended.2 envNoRender) rfl
  exact h.trans (by decide)

/-! ## C1: failure containment of the render/encode pipeline -/

theorem stepRes_isPanic_iff (r : StepRes) : r.isPanic = r.state.isNone := by
  cases r <;> rfl

/-- The state transition of one streaming step does not depend on the
external collaborators at all. -/
theorem stepLine_state (env : RenderEnv) (st : StreamState) (line : List Char) :
    (stepLine env st line).state = stepState st line := by
  obtain ⟨disp, buf⟩ := st
  cases disp with
  | true =>
    cases hfe : findFirst matchEndDMAt line with
    | none => simp [stepLine, stepState, hfe, StepRes.state]
    | some p =>
      obtain ⟨e0, e1⟩ := p
      by_cases hrem : line.drop e1 = [] <;>
        simp [stepLine, stepState, hfe, hrem, StepRes.state]
  | false =>
    cases hnb : normalBranch line with
    | openBlock s0 s1 => simp [stepLine, stepState, hnb, StepRes.state]
    | inlineOnly => simp [stepLine, stepState, hnb, StepRes.state]
    | singleLine s0 s1 e0 e1 =>
      by_cases hps : e0 < s1 <;>
        simp [stepLine, stepState, hnb, hps, StepRes.state]

/-- Claim C1, counterexample.  A display block written with bracket
delimiters, `\[x\]`, whose render fails, is *not* substituted by its
literal delimited source text: the output is the re-delimited
`$$x$$` + newline, and the literal source `\[x\]` appears nowhere in
the output.  (The diagnostic and the continuation do happen.) -/
theorem c1_literal_substitution_counterexample :
    processStream envNoRender false [("\\[x\\]".toList)] =
      ⟨"$$x$$\n".toList, [.renderDisplayFailed], false⟩ ∧
    ¬ ("\\[x\\]".toList <:+: "$$x$$\n".toList) := by
  exact ⟨by decide, by decide⟩

/-- Claim C1, amended.  In streaming mode, a render or encode failure on
a math segment is contained to that segment: (i) the inline pipeline
factors into independent per-segment outputs and diagnostics; (ii) an
inline segment whose render (or encode) fails contributes exactly its
literal matched text plus one diagnostic; (iii) a display segment whose
render (or encode) fails contributes its content re-wrapped in
`$$...$$` plus a newline (not the original delimiters) and one
diagnostic; (iv) after a display block closes on a line, the remainder
of the line is processed the same way whatever the render outcome was;
and (v) whether a streaming step aborts (the Go slice panic) and the
state it leaves are independent of the renderer and encoder — a
render/encode failure never aborts processing and never drops another
segment's output. -/
theorem c1_failure_containment_amended :
    (∀ (env : RenderEnv) (line : List Char),
      processInlineMath env line =
        (segsOutStr (inlineHandlerP env) (segments goFindParen
           (segsOutStr (inlineHandlerD env) (segments goFindInline line))),
         segsOutDiags (inlineHandlerD env) (segments goFindInline line) ++
         segsOutDiags (inlineHandlerP env) (segments goFindParen
           (segsOutStr (inlineHandlerD env) (segments goFindInline line))))) ∧
    (∀ (env : RenderEnv) (m content : List Char),
      content = goTrimSpace (goSlice m 1 (m.length - 1)) →
      content ≠ [] → env.render content false = none →
      inlineHandlerD env m = (m, [.renderInlineFailed content])) ∧
    (∀ (env : RenderEnv) (m content img : List Char),
      content = goTrimSpace (goSlice m 1 (m.length - 1)) →
      content ≠ [] → env.render content false = some img →
      env.kitty img false = none →
      inlineHandlerD env m = (m, [.kittyInlineFailed content])) ∧
    (∀ (env : RenderEnv) (content : List Char),
      env.render content true = none →
      displayRender env content =
        ('$' :: '$' :: content ++ ['$', '$', '\n'], [.renderDisplayFailed])) ∧
    (∀ (env : RenderEnv) (content img : List Char),
      env.render content true = some img → env.kitty img true = none →
      displayRender env content =
        ('$' :: '$' :: content ++ ['$', '$', '\n'], [.kittyDisplayFailed])) ∧
    (∀ (env : RenderEnv) (buffer line : List Char) (e0 e1 : Nat),
      findFirst matchEndDMAt line = some (e0, e1) →
      line.drop e1 ≠ [] →
      stepLine env ⟨true, buffer⟩ line =
        .ok ⟨false, []⟩
          ((displayRender env (buffer ++ line.take e0)).1 ++
            (fragmentOut env (line.drop e1)).1)
          ((displayRender env (buffer ++ line.take e0)).2 ++
            (fragmentOut env (line.drop e1)).2)) ∧
    (∀ (env1 env2 : RenderEnv) (st : StreamState) (line : List Char),
      (stepLine env1 st line).isPanic = (stepLine env2 st line).isPanic ∧
      (stepLine env1 st line).state = (stepLine env2 st line).state) := by
  refine ⟨?_, ?_, ?_, ?_, ?_, ?_, ?_⟩
  · intro env line
    simp only [processInlineMath, replaceAll_segments]
  · intro env m content hc hne hren
    unfold inlineHandlerD
    dsimp only
    rw [← hc, if_neg hne, hren]
  · intro env m content img hc hne hren hkit
    unfold inlineHandlerD
    dsimp only
    rw [← hc, if_neg hne, hren]
    dsimp only
    rw [hkit]
  · intro env content hren
    unfold displayRender
    rw [hren]
  · intro env content img hren hkit
    unfold displayRender
    rw [hren]
    dsimp only
    rw [hkit]
  · intro env buffer line e0 e1 hfe hrem
    simp [stepLine, hfe, hrem]
  · intro env1 env2 st line
    constructor
    · rw [stepRes_isPanic_iff, stepRes_isPanic_iff, stepLine_state,
        stepLine_state]
    · rw [stepLine_state, stepLine_state]

/-- Witness for C1 (amended): the inline failure clause evaluated on
the concrete match `$x$` in the always-failing environment — the
literal text is substituted and one diagnostic is recorded. -/
theorem c1_failure_containment_amended_witness :
    inlineHandlerD envNoRender ("$x$".toList) =
      ("$x$".toList, [.renderInlineFailed ("x".toList)]) := by
  exact c1_failure_containment_amended.2.1 envNoRender ("$x$".toList)
    ("x".toList) (by decide) (by decide) rfl

end DML
